import Mathlib

/-!
Verification development for the CineFlow repository.

The repository has two independent pipelines sharing only the channel entity:

* `src/utils/m3u.ts` (bundled in `vite.config.ts`'s compilation unit here):
  `fixImageUrl` and `parseM3U`, the playlist parser;
* `src/App.tsx`: the catalog view — `filteredChannels`, the
  `isSeriesView`/`groupedSeries` memo, and the render condition for the
  series list view;
* the server file (`src/unnamed/part_000`): the manual stream proxy —
  upstream request-header construction, response-header forwarding, and the
  upstream-error handler.

Strings are modelled by Lean `String`/`List Char`; JavaScript regular
expressions used by the source are modelled by explicit character-list
scanners whose backtracking behaviour is reproduced exactly (arguments for
each equivalence are given at each definition).  JavaScript numbers that are
only ever produced by `parseInt` on digit strings and compared/subtracted
are modelled by `Nat`/`Int` (exact for the magnitudes a playlist can
produce).
-/

namespace CineFlow

/-! ### JavaScript string primitives -/

/-- JavaScript `\s` (WhiteSpace ∪ LineTerminator): the characters recognised
by `String.prototype.trim` and by `\s` in a regular expression. -/
def isJsWs (c : Char) : Bool :=
  c = ' ' || c = '\t' || c = '\n' || c = '\r' || c = '\x0b' || c = '\x0c' ||
  c = ' ' || c = ' ' || (0x2000 ≤ c.val && c.val ≤ 0x200a) ||
  c = ' ' || c = ' ' || c = ' ' || c = ' ' || c = '　' ||
  c = '﻿'

/-- JavaScript LineTerminator characters: excluded by `.` in a regular
expression without the `s` flag. -/
def isLineTerm (c : Char) : Bool :=
  c = '\n' || c = '\r' || c = ' ' || c = ' '

def isDigitC (c : Char) : Bool := '0' ≤ c && c ≤ '9'

def isAsciiAlnum (c : Char) : Bool :=
  ('a' ≤ c && c ≤ 'z') || ('A' ≤ c && c ≤ 'Z') || isDigitC c

/-- `String.prototype.trim`, on character lists. -/
def jsTrimChars (cs : List Char) : List Char :=
  ((cs.dropWhile isJsWs).reverse.dropWhile isJsWs).reverse

/-- `String.prototype.split` with a single-character separator:
`"".split(c) = [""]`, separators delimit (possibly empty) fields. -/
def splitChar (sep : Char) : List Char → List (List Char)
  | [] => [[]]
  | c :: rest =>
    let r := splitChar sep rest
    if c = sep then [] :: r
    else
      match r with
      | h :: t => (c :: h) :: t
      | [] => [[c]]

/-- `String.prototype.includes` for a needle that is a plain substring. -/
def containsSub (pat : List Char) : List Char → Bool
  | [] => pat.isEmpty
  | cs@(_ :: rest) => pat.isPrefixOf cs || containsSub pat rest

/-- Suffix following the first occurrence of the literal `pat`, if any. -/
def dropAfterFirst (pat : List Char) : List Char → Option (List Char)
  | [] => if pat.isEmpty then some [] else none
  | cs@(_ :: rest) =>
    if pat.isPrefixOf cs then some (cs.drop pat.length) else dropAfterFirst pat rest

/-- `parseInt(ds, 10)` for a non-empty decimal digit string. -/
def digitsToNat (ds : List Char) : Nat :=
  ds.foldl (fun n c => n * 10 + (c.toNat - 48)) 0

/-- ASCII lowering; JavaScript's `toLowerCase` restricted to the characters
that occur in HTTP header names (Node lowercases header names, and the proxy
compares `key.toLowerCase()` against `'transfer-encoding'`). -/
def asciiLower (c : Char) : Char :=
  if 'A' ≤ c && c ≤ 'Z' then Char.ofNat (c.toNat + 32) else c

def lowerStr (s : String) : String := String.mk (s.data.map asciiLower)

/-! ### Data model (`src/types.ts`) -/

/-- `Channel` from `src/types.ts`.  The optional spread `...seriesCheck` in
`parseM3U` either sets all three series fields or none of them. -/
structure Channel where
  id : String
  name : String
  logo : String
  group : String
  url : String
  seriesName : Option String
  season : Option Nat
  episode : Option Nat
deriving DecidableEq

/-- `Series` from `src/types.ts`. -/
structure Series where
  name : String
  logo : String
  seasonCount : Nat
  episodeCount : Nat
  episodes : List Channel
deriving DecidableEq

/-! ### `fixImageUrl` (m3u.ts lines 33–48)

The regular expression `/\/images\/([a-zA-Z0-9]+)(?:_small)?\.jpg/` is
unanchored: the engine tries each start position left to right; at a given
position it requires the literal `/images/`, then a greedy non-empty
alphanumeric run, then optionally `_small`, then `.jpg`.  Backtracking the
greedy run cannot help: shortening it leaves an alphanumeric next character,
which can begin neither `_small` nor `.jpg`, so the run is exactly the
maximal alphanumeric run and the capture is independent of whether `_small`
was taken. -/

/-- Attempt the part of the image regex after the `/images/` literal. -/
def imageTail (cs : List Char) : Option (List Char) :=
  let run := cs.takeWhile isAsciiAlnum
  if run.isEmpty then none
  else
    let rest := cs.dropWhile isAsciiAlnum
    if ("_small.jpg".data.isPrefixOf rest) || (".jpg".data.isPrefixOf rest) then some run
    else none

/-- First match of `/\/images\/([a-zA-Z0-9]+)(?:_small)?\.jpg/`, returning
the captured group. -/
def imageIdMatch : List Char → Option (List Char)
  | [] => none
  | cs@(_ :: rest) =>
    if "/images/".data.isPrefixOf cs then
      match imageTail (cs.drop 8) with
      | some run => some run
      | none => imageIdMatch rest
    else imageIdMatch rest

/-- `fixImageUrl` (m3u.ts lines 33–48): `if (!url) return ''` is the empty
check, `url.includes('assistirpainel.net')` the host check. -/
def fixImageUrl (url : String) : String :=
  if url.data.isEmpty then "" else
  if containsSub "assistirpainel.net".data url.data then
    match imageIdMatch url.data with
    | some run => "https://image.tmdb.org/t/p/w500/" ++ String.mk run ++ ".jpg"
    | none => url
  else url

/-- The "broken-host image pattern": the host substring test together with a
match of the image-id regular expression (the condition under which
`fixImageUrl` rewrites). -/
def brokenImagePat (url : String) : Bool :=
  containsSub "assistirpainel.net".data url.data && (imageIdMatch url.data).isSome

/-! ### Series inference (m3u.ts line 80)

`currentName.match(/^(.*?)\s+S(\d+)\s*E(\d+)/i)`:
the lazy `(.*?)` makes the engine try split points left to right (shortest
prefix first); `.` does not cross a LineTerminator.  At a fixed split point
the greedy `\s+` run must be followed directly by `S`/`s` (shortening the
run leaves a whitespace character, never `S`), the greedy digit run `(\d+)`
by `\s*` and then `E`/`e` (shortening it leaves a digit, never `E` or
whitespace), making each quantifier equivalent to a plain `takeWhile`. -/

/-- Attempt `\s+S(\d+)\s*E(\d+)` at the current position; returns the two
numeric captures. -/
def seriesTail (cs : List Char) : Option (Nat × Nat) :=
  if (cs.takeWhile isJsWs).isEmpty then none else
  match cs.dropWhile isJsWs with
  | [] => none
  | c :: rest =>
    if c = 'S' || c = 's' then
      let ds := rest.takeWhile isDigitC
      if ds.isEmpty then none else
      match (rest.dropWhile isDigitC).dropWhile isJsWs with
      | [] => none
      | e :: rest2 =>
        if e = 'E' || e = 'e' then
          let es := rest2.takeWhile isDigitC
          if es.isEmpty then none else some (digitsToNat ds, digitsToNat es)
        else none
    else none

/-- Full match of `/^(.*?)\s+S(\d+)\s*E(\d+)/i`: the untrimmed capture of
group 1 together with the season and episode numbers. -/
def inferSeries : List Char → Option (List Char × Nat × Nat)
  | [] => none
  | cs@(c :: rest) =>
    match seriesTail cs with
    | some (s, e) => some ([], s, e)
    | none =>
      if isLineTerm c then none
      else
        match inferSeries rest with
        | some (p, s, e) => some (c :: p, s, e)
        | none => none

/-! ### `parseM3U` (m3u.ts lines 50–109) -/

/-- The transient metadata variables `currentGroup`, `currentLogo`,
`currentId`, `currentName` of the parse loop. -/
structure PState where
  group : String
  logo : String
  id : String
  name : String
deriving DecidableEq

/-- The defaults the pending metadata is (re)set to. -/
def initPState : PState := PState.mk "Uncategorized" "" "" ""

/-- Capture of `/attr="([^"]*)"/` applied to a line: the first occurrence of
the literal `attr="` followed by a closing quote; since `[^"]*` cannot cross
a quote, a first occurrence with no closing quote implies no quote — hence no
further occurrence of the pattern — exists at all, so trying only the first
occurrence is faithful. -/
def attrCapture (attrEq : List Char) (line : List Char) : Option (List Char) :=
  match dropAfterFirst attrEq line with
  | some rest =>
    if (rest.dropWhile (· ≠ '"')).isEmpty then none
    else some (rest.takeWhile (· ≠ '"'))
  | none => none

/-- The display name of an `#EXTINF:` line: the text after the last comma,
trimmed (`line.split(',')`, last part, `.trim()`). -/
def extinfName (line : List Char) : List Char :=
  match (splitChar ',' line).getLast? with
  | some l => jsTrimChars l
  | none => []

/-- One `#EXTINF:` line updating the pending metadata (lines 62–76). -/
def readExtinf (line : List Char) : PState :=
  PState.mk
    (match attrCapture "group-title=\"".data line with
     | some g => String.mk g
     | none => "Uncategorized")
    (fixImageUrl (match attrCapture "tvg-logo=\"".data line with
     | some lg => String.mk lg
     | none => ""))
    (match attrCapture "tvg-id=\"".data line with
     | some i => String.mk i
     | none => "")
    (String.mk (extinfName line))

/-- Materializing a channel from a playback line (lines 77–98): series
inference on `currentName`, truthiness defaults for `id` and `name`. -/
def mkChannel (st : PState) (idx : Nat) (line : List Char) : Channel :=
  let ser := inferSeries st.name.data
  Channel.mk
    (if st.id.data.isEmpty then "ch-" ++ Nat.repr idx else st.id)
    (if st.name.data.isEmpty then "Unknown Channel" else st.name)
    st.logo
    st.group
    (String.mk line)
    (ser.map (fun r => String.mk (jsTrimChars r.1)))
    (ser.map (fun r => r.2.1))
    (ser.map (fun r => r.2.2))

/-- The parse loop of `parseM3U` over the split lines. -/
def parseGo : PState → List Channel → List (List Char) → List Channel
  | _, acc, [] => acc
  | st, acc, lnRaw :: rest =>
    let line := jsTrimChars lnRaw
    if line.isEmpty then parseGo st acc rest
    else if "#EXTINF:".data.isPrefixOf line then parseGo (readExtinf line) acc rest
    else if "#".data.isPrefixOf line then parseGo st acc rest
    else parseGo initPState (acc ++ [mkChannel st acc.length line]) rest

/-- `parseM3U` (m3u.ts lines 50–109). -/
def parseM3U (content : String) : List Channel :=
  parseGo initPState [] (splitChar '\n' content.data)

/-- A raw line that materializes an entry: non-blank after trimming and not
a comment. -/
def isPlaybackLine (l : List Char) : Bool :=
  !(jsTrimChars l).isEmpty && !("#".data.isPrefixOf (jsTrimChars l))

/-- The number of non-blank lines not starting with `#` after trimming — the
lines the parser materializes entries from. -/
def countPlaybackLines (content : String) : Nat :=
  ((splitChar '\n' content.data).filter isPlaybackLine).length

/-! ### Catalog view (`src/App.tsx`) -/

/-- JavaScript truthiness of `c.seriesName` (App.tsx line 91 / 101): an
absent field and the empty string are both falsy. -/
def hasSeriesName (c : Channel) : Bool :=
  match c.seriesName with
  | some s => !s.data.isEmpty
  | none => false

/-- The truthy series key used by the grouping loop: `c.seriesName` when it
is truthy. -/
def truthySeriesName (c : Channel) : Option String :=
  match c.seriesName with
  | some s => if s.data.isEmpty then none else some s
  | none => none

/-- `isSeries` (App.tsx lines 91–92):
`seriesItems.length > 0 && (seriesItems.length / filteredChannels.length) > 0.5`.
The JavaScript quotient of two list lengths is modelled by the exact rational
quotient (`mkRat a b` is `(a : ℚ) / (b : ℚ)`, including the `0/0 = 0`
convention matching `NaN > 0.5 = false`); `0.5` is exactly representable and
for any list short enough to exist in memory (`length < 2^52`) the rounded
double quotient is on the same side of `0.5` as the exact rational, so the
comparison agrees. -/
def isSeriesView (filtered : List Channel) : Bool :=
  let k := (filtered.filter hasSeriesName).length
  decide (0 < k) && decide (mkRat k filtered.length > mkRat 1 2)

/-- The render condition of the series list view (App.tsx line 291):
`isSeriesView && !searchQuery.includes('S')`. -/
def showsSeriesList (filtered : List Channel) (searchQuery : String) : Bool :=
  isSeriesView filtered && !(searchQuery.data.contains 'S')

/-- JavaScript `x || 0` on an optional number: `undefined` and `0` both give
`0` (App.tsx lines 123–126). -/
def jsOr0 (o : Option Nat) : Nat :=
  match o with
  | some n => if n = 0 then 0 else n
  | none => 0

/-- JavaScript `x || 1` on an optional number: `undefined` and `0` both give
`1` (App.tsx lines 128, and the season views). -/
def jsOr1 (o : Option Nat) : Nat :=
  match o with
  | some n => if n = 0 then 1 else n
  | none => 1

/-- The episode comparator (App.tsx lines 122–127), `sA`/`sB` standing for
`a.season || 0` / `b.season || 0`:
`if (sA !== sB) return sA - sB; return (a.episode || 0) - (b.episode || 0)`. -/
def epCmp (a b : Channel) : Int :=
  if (jsOr0 a.season : Int) ≠ (jsOr0 b.season : Int) then
    (jsOr0 a.season : Int) - (jsOr0 b.season : Int)
  else (jsOr0 a.episode : Int) - (jsOr0 b.episode : Int)

/-- The non-strict order induced by the comparator: `a` may come before `b`
in a sorted result. -/
def epLe (a b : Channel) : Prop := epCmp a b ≤ 0

instance : DecidableRel epLe := fun a b => inferInstanceAs (Decidable (epCmp a b ≤ 0))

/-- `Array.prototype.sort` is stable and sorts according to the comparator;
with a consistent comparator the stable sorted result is unique, and
`List.insertionSort epLe` (which inserts each element before the first
strictly-later element, i.e. behind equal ones) is exactly that result. -/
def epSort (eps : List Channel) : List Channel := List.insertionSort epLe eps

/-- Appending an episode to the map entry for key `n`, creating the entry at
the end if absent — JavaScript `Map` insertion-order semantics of
`seriesMap.get(n).episodes.push(c)` / `seriesMap.set(n, …)`
(App.tsx lines 101–118). -/
def addToSeries : List (String × List Channel) → String → Channel → List (String × List Channel)
  | [], n, c => [(n, [c])]
  | (m, eps) :: rest, n, c =>
    if m = n then (m, eps ++ [c]) :: rest
    else (m, eps) :: addToSeries rest n c

/-- The grouping loop (App.tsx lines 101–118): entries with a truthy
`seriesName` are appended to their series bucket in traversal order;
standalones are dropped here (the destructured `standaloneChannels` is not
consumed by the series list view). -/
def collectSeries (filtered : List Channel) : List (String × List Channel) :=
  filtered.foldl
    (fun acc c =>
      match truthySeriesName c with
      | some n => addToSeries acc n c
      | none => acc)
    []

/-- The bucket of key `n` in an association list (empty when absent) — a
proof device for reasoning about `collectSeries`. -/
def assocEps (n : String) : List (String × List Channel) → List Channel
  | [] => []
  | (m, eps) :: rest => if m = n then eps else assocEps n rest

/-- Finalizing one map entry (App.tsx lines 104–110 and 121–130): logo from
the first episode encountered, episodes sorted by the comparator,
`seasonCount` the number of distinct `season || 1` values. -/
def mkSeries (n : String) (eps : List Channel) : Series :=
  Series.mk n
    (match eps.head? with
     | some c => c.logo
     | none => "")
    ((eps.map (fun e => jsOr1 e.season)).dedup.length)
    eps.length
    (epSort eps)

/-- `groupedSeries` (App.tsx lines 89–137): empty unless the heuristic
selects the series view, otherwise the finalized map entries in insertion
order. -/
def groupedSeries (filtered : List Channel) : List Series :=
  if isSeriesView filtered then (collectSeries filtered).map (fun p => mkSeries p.1 p.2)
  else []

/-! ### Stream proxy (`src/unnamed/part_000`, the Express server) -/

/-- The fixed impersonation headers of `proxyOptions` (server lines 159–173). -/
def impersonationHeaders (host : String) (port : Nat) : List (String × String) :=
  [("User-Agent", "Lavf/60.3.100"),
   ("Accept", "*/*"),
   ("Accept-Language", "en-US,en;q=0.9"),
   ("Accept-Encoding", "identity"),
   ("Connection", "keep-alive"),
   ("Host", host ++ ":" ++ Nat.repr port),
   ("Icy-MetaData", "1")]

/-- `req.headers` lookup: Node lowercases inbound header names, so
`req.headers.range` finds any inbound header whose name lowers to
`range`. -/
def lookupHeader (key : String) (hs : List (String × String)) : Option String :=
  match hs.find? (fun p => lowerStr p.1 == key) with
  | some p => some p.2
  | none => none

/-- Upstream request-header construction (server lines 159–178): the fixed
impersonation set, plus `Range` copied from the inbound request only when
`req.headers.range` is truthy (present and non-empty). -/
def upstreamHeaders (host : String) (port : Nat) (inbound : List (String × String)) :
    List (String × String) :=
  let base := impersonationHeaders host port
  match lookupHeader "range" inbound with
  | some r => if r.data.isEmpty then base else base ++ [("Range", r)]
  | none => base

/-- `res.setHeader`: header names are case-insensitive; setting an existing
name replaces its value in place, a new name is appended. -/
def setHeaderM (hs : List (String × String)) (k v : String) : List (String × String) :=
  if hs.any (fun p => lowerStr p.1 == lowerStr k) then
    hs.map (fun p => if lowerStr p.1 == lowerStr k then (p.1, v) else p)
  else hs ++ [(k, v)]

/-- The three CORS headers set first in the `proxyRes` callback
(server lines 182–184). -/
def corsResHeaders : List (String × String) :=
  setHeaderM
    (setHeaderM
      (setHeaderM [] "Access-Control-Allow-Origin" "*")
      "Access-Control-Allow-Methods" "GET, OPTIONS")
    "Access-Control-Expose-Headers" "Content-Length, Content-Range, Content-Type"

/-- One iteration of the `Object.keys(proxyRes.headers).forEach` loop
(server lines 187–191): skip `transfer-encoding`, copy everything else. -/
def forwardStep (acc : List (String × String)) (p : String × String) :
    List (String × String) :=
  if lowerStr p.1 ≠ "transfer-encoding" then setHeaderM acc p.1 p.2 else acc

/-- Response-header forwarding (server lines 186–191): every upstream header
whose lowered name is not `transfer-encoding` is copied over the CORS
baseline. -/
def forwardResHeaders (upstreamHs : List (String × String)) : List (String × String) :=
  upstreamHs.foldl forwardStep corsResHeaders

/-- The `proxyRes` callback outcome (server lines 180–195): mirrored status
code and forwarded headers. -/
def relayResponse (upstreamStatus : Nat) (upstreamHs : List (String × String)) :
    Nat × List (String × String) :=
  (upstreamStatus, forwardResHeaders upstreamHs)

/-- The observable client response state the error handler manipulates:
whether headers have been flushed (true once the first body bytes have been
streamed), the status code, and the JSON error payload, modelled as its
`(error, details)` field pair. -/
structure ClientRes where
  headersSent : Bool
  statusCode : Option Nat
  jsonBody : Option (String × String)
deriving DecidableEq

/-- The `proxyReq.on('error')` handler (server lines 197–202):
`if (!res.headersSent) res.status(502).json(\x7b error: 'Stream unavailable',
details: err.message \x7d)`; otherwise nothing — the response stream simply
ends. -/
def onProxyError (res : ClientRes) (errMsg : String) : ClientRes :=
  if res.headersSent then res
  else ClientRes.mk res.headersSent (some 502) (some ("Stream unavailable", errMsg))

/-! ### Shared concrete channels for examples and witnesses -/

/-- An episode entry of series `X` with key (season 1, episode 1). -/
def chA : Channel := Channel.mk "a" "A" "" "g" "http://a" (some "X") (some 1) (some 1)

/-- A distinct entry of series `X` with the same key (season 1, episode 1). -/
def chB : Channel := Channel.mk "b" "B" "" "g" "http://b" (some "X") (some 1) (some 1)

/-- An entry of series `X` with key (season 2, episode 1). -/
def chC : Channel := Channel.mk "c" "C" "" "g" "http://c" (some "X") (some 2) (some 1)

/-- A standalone (movie) entry with no series fields. -/
def chM1 : Channel := Channel.mk "m1" "M1" "" "g" "http://m1" none none none

/-- A second standalone entry. -/
def chM2 : Channel := Channel.mk "m2" "M2" "" "g" "http://m2" none none none

/-! ### Parser invariants shared by C1, C3 and C9 -/

theorem extinf_has_hash (t : List Char)
    (h : "#EXTINF:".data.isPrefixOf t = true) : "#".data.isPrefixOf t = true := by
  rw [List.isPrefixOf_iff_prefix] at h ⊢
  exact List.IsPrefix.trans (by decide) h

/-- The series fields of a channel are exactly the series inference applied
to its finalized display name. -/
def seriesFieldsOk (c : Channel) : Prop :=
  c.seriesName = (inferSeries c.name.data).map (fun r => String.mk (jsTrimChars r.1)) ∧
  c.season = (inferSeries c.name.data).map (fun r => r.2.1) ∧
  c.episode = (inferSeries c.name.data).map (fun r => r.2.2)

theorem mkChannel_seriesName (st : PState) (n : Nat) (line : List Char) :
    (mkChannel st n line).seriesName =
      (inferSeries st.name.data).map (fun r => String.mk (jsTrimChars r.1)) := rfl

theorem mkChannel_season (st : PState) (n : Nat) (line : List Char) :
    (mkChannel st n line).season = (inferSeries st.name.data).map (fun r => r.2.1) := rfl

theorem mkChannel_episode (st : PState) (n : Nat) (line : List Char) :
    (mkChannel st n line).episode = (inferSeries st.name.data).map (fun r => r.2.2) := rfl

theorem mkChannel_name (st : PState) (n : Nat) (line : List Char) :
    (mkChannel st n line).name =
      (if st.name.data.isEmpty then "Unknown Channel" else st.name) := rfl

theorem mkChannel_seriesFieldsOk (st : PState) (n : Nat) (line : List Char) :
    seriesFieldsOk (mkChannel st n line) := by
  unfold seriesFieldsOk
  rw [mkChannel_seriesName, mkChannel_season, mkChannel_episode, mkChannel_name]
  by_cases h : st.name.data.isEmpty
  · rw [if_pos h]
    have hd : st.name.data = [] := List.isEmpty_iff.mp h
    rw [hd]
    have hu : inferSeries "Unknown Channel".data = none := by decide
    rw [hu]
    exact ⟨rfl, rfl, rfl⟩
  · rw [if_neg h]
    exact ⟨rfl, rfl, rfl⟩

theorem parseGo_seriesFieldsOk :
    ∀ (lines : List (List Char)) (st : PState) (acc : List Channel),
      (∀ c ∈ acc, seriesFieldsOk c) → ∀ c ∈ parseGo st acc lines, seriesFieldsOk c := by
  intro lines
  induction lines with
  | nil => intro st acc hacc c hc; exact hacc c hc
  | cons lnRaw rest ih =>
    intro st acc hacc c hc
    simp only [parseGo] at hc
    by_cases h1 : (jsTrimChars lnRaw).isEmpty
    · rw [if_pos h1] at hc
      exact ih st acc hacc c hc
    · rw [if_neg h1] at hc
      by_cases h2 : "#EXTINF:".data.isPrefixOf (jsTrimChars lnRaw)
      · rw [if_pos h2] at hc
        exact ih _ acc hacc c hc
      · rw [if_neg h2] at hc
        by_cases h3 : "#".data.isPrefixOf (jsTrimChars lnRaw)
        · rw [if_pos h3] at hc
          exact ih st acc hacc c hc
        · rw [if_neg h3] at hc
          refine ih _ _ ?_ c hc
          intro d hd
          rcases List.mem_append.mp hd with hd | hd
          · exact hacc d hd
          · rw [List.mem_singleton.mp hd]
            exact mkChannel_seriesFieldsOk st acc.length (jsTrimChars lnRaw)

theorem parseGo_url_ne :
    ∀ (lines : List (List Char)) (st : PState) (acc : List Channel),
      (∀ c ∈ acc, c.url ≠ "") → ∀ c ∈ parseGo st acc lines, c.url ≠ "" := by
  intro lines
  induction lines with
  | nil => intro st acc hacc c hc; exact hacc c hc
  | cons lnRaw rest ih =>
    intro st acc hacc c hc
    simp only [parseGo] at hc
    by_cases h1 : (jsTrimChars lnRaw).isEmpty
    · rw [if_pos h1] at hc
      exact ih st acc hacc c hc
    · rw [if_neg h1] at hc
      by_cases h2 : "#EXTINF:".data.isPrefixOf (jsTrimChars lnRaw)
      · rw [if_pos h2] at hc
        exact ih _ acc hacc c hc
      · rw [if_neg h2] at hc
        by_cases h3 : "#".data.isPrefixOf (jsTrimChars lnRaw)
        · rw [if_pos h3] at hc
          exact ih st acc hacc c hc
        · rw [if_neg h3] at hc
          refine ih _ _ ?_ c hc
          intro d hd
          rcases List.mem_append.mp hd with hd | hd
          · exact hacc d hd
          · rw [List.mem_singleton.mp hd]
            intro habs
            have hnil : (jsTrimChars lnRaw) = [] := congrArg String.data habs
            exact h1 (by rw [hnil]; rfl)

theorem parseGo_length :
    ∀ (lines : List (List Char)) (st : PState) (acc : List Channel),
      (parseGo st acc lines).length = acc.length + (lines.filter isPlaybackLine).length := by
  intro lines
  induction lines with
  | nil => intro st acc; simp [parseGo]
  | cons lnRaw rest ih =>
    intro st acc
    simp only [parseGo, List.filter_cons]
    by_cases h1 : (jsTrimChars lnRaw).isEmpty
    · have hp : isPlaybackLine lnRaw = false := by
        unfold isPlaybackLine
        rw [h1]
        rfl
      rw [if_pos h1, hp, ih st acc]
      simp
    · rw [if_neg h1]
      by_cases h2 : "#EXTINF:".data.isPrefixOf (jsTrimChars lnRaw)
      · have hp : isPlaybackLine lnRaw = false := by
          unfold isPlaybackLine
          rw [extinf_has_hash _ h2]
          simp
        rw [if_pos h2, hp, ih _ acc]
        simp
      · rw [if_neg h2]
        by_cases h3 : "#".data.isPrefixOf (jsTrimChars lnRaw)
        · have hp : isPlaybackLine lnRaw = false := by
            unfold isPlaybackLine
            rw [h3]
            simp
          rw [if_pos h3, hp, ih st acc]
          simp
        · have e1 : (jsTrimChars lnRaw).isEmpty = false := Bool.eq_false_iff.mpr h1
          have e3 : ("#".data.isPrefixOf (jsTrimChars lnRaw)) = false := Bool.eq_false_iff.mpr h3
          have hp : isPlaybackLine lnRaw = true := by
            unfold isPlaybackLine
            rw [e1, e3]
            rfl
          rw [if_neg h3, ih _ _, if_pos hp]
          simp only [List.length_append, List.length_cons, List.length_nil]
          omega

theorem parseGo_reset (st : PState) (acc : List Channel) (lnRaw : List Char)
    (rest : List (List Char))
    (h1 : (jsTrimChars lnRaw).isEmpty = false)
    (h3 : "#".data.isPrefixOf (jsTrimChars lnRaw) = false) :
    parseGo st acc (lnRaw :: rest) =
      parseGo initPState (acc ++ [mkChannel st acc.length (jsTrimChars lnRaw)]) rest := by
  have h2 : "#EXTINF:".data.isPrefixOf (jsTrimChars lnRaw) = false := by
    by_contra hx
    rw [Bool.not_eq_false] at hx
    rw [extinf_has_hash _ hx] at h3
    exact absurd h3 (by simp)
  simp only [parseGo]
  rw [if_neg (by simp [h1]), if_neg (by simp [h2]), if_neg (by simp [h3])]

/-! ### C1 — series inference -/

/-- **C1.** For every parsed entry the series fields are exactly the result
of the series inference (the `/^(.*?)\s+S(\d+)\s*E(\d+)/i` match, trimmed
title and integer season/episode) applied to the finalized display name;
`Breaking Bad S02 E05` yields (`Breaking Bad`, 2, 5) and `Inception (2010)`
leaves all three fields unset. -/
theorem series_inference_spec :
    (∀ (content : String), ∀ c ∈ parseM3U content,
        c.seriesName = (inferSeries c.name.data).map (fun r => String.mk (jsTrimChars r.1)) ∧
        c.season = (inferSeries c.name.data).map (fun r => r.2.1) ∧
        c.episode = (inferSeries c.name.data).map (fun r => r.2.2)) ∧
    parseM3U "#EXTINF:-1,Breaking Bad S02 E05\nhttp://u" =
      [Channel.mk "ch-0" "Breaking Bad S02 E05" "" "Uncategorized" "http://u"
        (some "Breaking Bad") (some 2) (some 5)] ∧
    parseM3U "#EXTINF:-1,Inception (2010)\nhttp://u" =
      [Channel.mk "ch-0" "Inception (2010)" "" "Uncategorized" "http://u"
        none none none] := by
  refine ⟨?_, by decide, by decide⟩
  intro content c hc
  exact parseGo_seriesFieldsOk _ initPState []
    (fun d hd => absurd hd (List.not_mem_nil d)) c hc

/-- Witness for C1: the general clause applied to the parsed
`Breaking Bad S02 E05` entry. -/
theorem series_inference_spec_witness :
    (Channel.mk "ch-0" "Breaking Bad S02 E05" "" "Uncategorized" "http://u"
       (some "Breaking Bad") (some 2) (some 5) ∈
       parseM3U "#EXTINF:-1,Breaking Bad S02 E05\nhttp://u") ∧
    (Channel.mk "ch-0" "Breaking Bad S02 E05" "" "Uncategorized" "http://u"
       (some "Breaking Bad") (some 2) (some 5)).seriesName =
      (inferSeries (Channel.mk "ch-0" "Breaking Bad S02 E05" "" "Uncategorized" "http://u"
        (some "Breaking Bad") (some 2) (some 5)).name.data).map
        (fun r => String.mk (jsTrimChars r.1)) :=
  ⟨by decide,
   (series_inference_spec.1 "#EXTINF:-1,Breaking Bad S02 E05\nhttp://u" _ (by decide)).1⟩

/-! ### C3 — one entry per playback line, pending state reset -/

/-- **C3.** Every non-blank non-comment line produces exactly one entry;
an orphan playback line with no preceding metadata yields the defaulted
entry (`Unknown Channel` / `Uncategorized` / `ch-<index>`); and after an
entry is materialized the pending metadata is reset to its defaults, so a
metadata line influences only the entry immediately following it (second
playback line gets pure defaults). -/
theorem parse_one_entry_per_playback_line :
    (∀ content : String, (parseM3U content).length = countPlaybackLines content) ∧
    (∀ (st : PState) (acc : List Channel) (lnRaw : List Char) (rest : List (List Char)),
        (jsTrimChars lnRaw).isEmpty = false →
        "#".data.isPrefixOf (jsTrimChars lnRaw) = false →
        parseGo st acc (lnRaw :: rest) =
          parseGo initPState (acc ++ [mkChannel st acc.length (jsTrimChars lnRaw)]) rest) ∧
    parseM3U "http://example.com/stream" =
      [Channel.mk "ch-0" "Unknown Channel" "" "Uncategorized" "http://example.com/stream"
        none none none] ∧
    parseM3U "#EXTINF:-1 group-title=\"G\" tvg-id=\"x1\",Name One\nhttp://a\nhttp://b" =
      [Channel.mk "x1" "Name One" "" "G" "http://a" none none none,
       Channel.mk "ch-1" "Unknown Channel" "" "Uncategorized" "http://b" none none none] := by
  refine ⟨?_, parseGo_reset, by decide, by decide⟩
  intro content
  unfold parseM3U countPlaybackLines
  rw [parseGo_length]
  simp

/-- Witness for C3's reset clause at a concrete pending state and line. -/
theorem parse_one_entry_per_playback_line_witness :
    (jsTrimChars "http://x".data).isEmpty = false ∧
    parseGo (PState.mk "G" "L" "I" "N") [] ["http://x".data] =
      parseGo initPState
        ([] ++ [mkChannel (PState.mk "G" "L" "I" "N") 0 (jsTrimChars "http://x".data)]) [] :=
  ⟨by decide,
   parse_one_entry_per_playback_line.2.1 (PState.mk "G" "L" "I" "N") [] "http://x".data []
     (by decide) (by decide)⟩

/-! ### C9 — playback URLs are never empty -/

/-- **C9.** Every `ChannelEntry` produced by `parseM3U` has a non-empty
`playbackUrl`: blank lines are skipped before they can materialize an
entry. -/
theorem playbackUrl_never_empty :
    ∀ (content : String), ∀ c ∈ parseM3U content, c.url ≠ "" := by
  intro content c hc
  exact parseGo_url_ne _ initPState []
    (fun d hd => absurd hd (List.not_mem_nil d)) c hc

/-- Witness for C9 at a concrete parsed entry. -/
theorem playbackUrl_never_empty_witness :
    (Channel.mk "ch-0" "Unknown Channel" "" "Uncategorized" "http://example.com/stream"
       none none none ∈ parseM3U "http://example.com/stream") ∧
    (Channel.mk "ch-0" "Unknown Channel" "" "Uncategorized" "http://example.com/stream"
       none none none).url ≠ "" :=
  ⟨by decide, playbackUrl_never_empty "http://example.com/stream" _ (by decide)⟩

/-! ### C4 — logo URL rewrite -/

/-- **C4.** The logo URL rewrite maps
`http://assistirpainel.net:8080/images/abc123_small.jpg` to
`https://image.tmdb.org/t/p/w500/abc123.jpg`, and every URL not matching the
broken-host image pattern — including the empty string — is returned
unchanged. -/
theorem fixImageUrl_spec :
    fixImageUrl "http://assistirpainel.net:8080/images/abc123_small.jpg" =
      "https://image.tmdb.org/t/p/w500/abc123.jpg" ∧
    fixImageUrl "" = "" ∧
    ∀ url : String, brokenImagePat url = false → fixImageUrl url = url := by
  refine ⟨by decide, rfl, ?_⟩
  intro url h
  unfold brokenImagePat at h
  unfold fixImageUrl
  by_cases he : url.data.isEmpty
  · obtain ⟨d⟩ := url
    simp only [List.isEmpty_iff] at he
    subst he
    rfl
  · rw [Bool.and_eq_false_iff] at h
    by_cases hc : containsSub "assistirpainel.net".data url.data
    · have hm : imageIdMatch url.data = none := by
        rcases h with hc' | hm
        · rw [hc] at hc'; exact absurd hc' (by simp)
        · exact Option.not_isSome_iff_eq_none.mp (by rw [hm]; simp)
      simp [he, hc, hm]
    · simp [he, hc]

/-- Witness for C4: a URL away from the broken host passes through. -/
theorem fixImageUrl_spec_witness :
    brokenImagePat "http://example.com/poster.jpg" = false ∧
    fixImageUrl "http://example.com/poster.jpg" = "http://example.com/poster.jpg" :=
  ⟨by decide, fixImageUrl_spec.2.2 "http://example.com/poster.jpg" (by decide)⟩

/-! ### C8 — upstream error handling -/

/-- **C8.** An upstream connection error before any bytes have been sent to
the client yields status 502 with the structured JSON diagnostic payload;
an error after streaming has started changes nothing about the response
state — the stream is simply terminated. -/
theorem onProxyError_spec :
    (∀ (res : ClientRes) (msg : String), res.headersSent = false →
        (onProxyError res msg).statusCode = some 502 ∧
        (onProxyError res msg).jsonBody = some ("Stream unavailable", msg)) ∧
    (∀ (res : ClientRes) (msg : String), res.headersSent = true →
        onProxyError res msg = res) := by
  constructor
  · intro res msg h
    unfold onProxyError
    rw [h]
    exact ⟨rfl, rfl⟩
  · intro res msg h
    unfold onProxyError
    rw [h]
    rfl

/-- Witness for C8 at a fresh response and at a streaming response. -/
theorem onProxyError_spec_witness :
    (ClientRes.mk false none none).headersSent = false ∧
    (onProxyError (ClientRes.mk false none none) "connect ECONNREFUSED").statusCode =
      some 502 ∧
    (ClientRes.mk true (some 200) none).headersSent = true ∧
    onProxyError (ClientRes.mk true (some 200) none) "read ECONNRESET" =
      ClientRes.mk true (some 200) none :=
  ⟨rfl, (onProxyError_spec.1 (ClientRes.mk false none none) "connect ECONNREFUSED" rfl).1,
   rfl, onProxyError_spec.2 (ClientRes.mk true (some 200) none) "read ECONNRESET" rfl⟩

/-! ### C10 — capital `S` in the search text suppresses the series view -/

/-- **C10.** Even when the grouping heuristic selects series mode, the
series-grouped list is rendered only if the search text does not contain the
capital letter `S`; any search text containing `S` forces the flat channel
list regardless of the `seriesName` fraction. -/
theorem seriesList_requires_no_capital_S :
    (∀ (filtered : List Channel) (q : String),
        q.data.contains 'S' = true → showsSeriesList filtered q = false) ∧
    (∀ (filtered : List Channel) (q : String),
        showsSeriesList filtered q = true ↔
          isSeriesView filtered = true ∧ q.data.contains 'S' = false) ∧
    (isSeriesView [chA] = true ∧ showsSeriesList [chA] "Super" = false) := by
  refine ⟨?_, ?_, by decide, by decide⟩
  · intro filtered q h
    unfold showsSeriesList
    rw [h]
    simp
  · intro filtered q
    simp [showsSeriesList]

/-- Witness for C10: a 100%-series set with an `S` in the query renders
flat. -/
theorem seriesList_requires_no_capital_S_witness :
    ("Series".data.contains 'S' = true) ∧ showsSeriesList [chA, chC] "Series" = false :=
  ⟨by decide, seriesList_requires_no_capital_S.1 [chA, chC] "Series" (by decide)⟩

/-! ### C2 — grouping-mode heuristic -/

/-- **C2.** The grouping mode is `series` exactly when the fraction of
entries carrying a `seriesName` strictly exceeds one half; a 60% set is in
series mode, 50% and 40% sets are flat. -/
theorem groupingMode_spec :
    (∀ filtered : List Channel,
        isSeriesView filtered = true ↔
          (((filtered.filter hasSeriesName).length : ℚ) / (filtered.length : ℚ) > 1 / 2)) ∧
    isSeriesView [chA, chB, chC, chM1, chM2] = true ∧
    isSeriesView [chA, chB, chM1, chM2] = false ∧
    isSeriesView [chA, chB, chM1, chM2, chM2] = false := by
  refine ⟨?_, by decide, by decide, by decide⟩
  intro filtered
  unfold isSeriesView
  simp only [Bool.and_eq_true, decide_eq_true_eq]
  constructor
  · rintro ⟨-, h⟩
    rwa [Rat.mkRat_eq_div, Rat.mkRat_eq_div, Int.cast_natCast, Int.cast_one] at h
  · intro h
    refine ⟨?_, ?_⟩
    · by_contra hk
      have h0 : (filtered.filter hasSeriesName).length = 0 := by omega
      rw [h0] at h
      norm_num at h
    · rwa [Rat.mkRat_eq_div, Rat.mkRat_eq_div, Int.cast_natCast, Int.cast_one]

/-! ### C5 — episode ordering and permutation invariance -/

theorem epCmp_swap (a b : Channel) : epCmp b a = -epCmp a b := by
  unfold epCmp
  split
  · split
    · omega
    · omega
  · split
    · omega
    · omega

theorem epLe_iff (a b : Channel) :
    epLe a b ↔ (jsOr0 a.season < jsOr0 b.season ∨
      (jsOr0 a.season = jsOr0 b.season ∧ jsOr0 a.episode ≤ jsOr0 b.episode)) := by
  unfold epLe epCmp
  split
  · omega
  · omega

instance : IsTotal Channel epLe :=
  ⟨fun a b => by
    have h := epCmp_swap a b
    unfold epLe
    omega⟩

instance : IsTrans Channel epLe :=
  ⟨fun a b c hab hbc => by
    rw [epLe_iff] at hab hbc ⊢
    omega⟩

theorem epSort_sorted (l : List Channel) : (epSort l).Sorted epLe :=
  List.sorted_insertionSort epLe l

theorem epSort_perm (l : List Channel) : (epSort l).Perm l :=
  List.perm_insertionSort epLe l

/-- Two sorted permutations of each other are equal when the comparator
never ties distinct elements of the lists. -/
theorem eq_of_sorted_of_perm_inj :
    ∀ (l1 l2 : List Channel), l1.Perm l2 → l1.Sorted epLe → l2.Sorted epLe →
      (∀ a ∈ l1, ∀ b ∈ l1, epCmp a b = 0 → a = b) → l1 = l2 := by
  intro l1
  induction l1 with
  | nil =>
    intro l2 hp _ _ _
    exact (hp.symm.eq_nil).symm
  | cons a t ih =>
    intro l2 hp hs1 hs2 hinj
    cases l2 with
    | nil => exact absurd hp.eq_nil (by simp)
    | cons b t2 =>
      have hab : a = b := by
        by_cases h : a = b
        · exact h
        · have ha2 : a ∈ b :: t2 := hp.subset (List.mem_cons_self a t)
          have hb1 : b ∈ a :: t := hp.symm.subset (List.mem_cons_self b t2)
          have hat2 : a ∈ t2 := by
            rcases List.mem_cons.mp ha2 with h' | h'
            · exact absurd h' h
            · exact h'
          have hbt : b ∈ t := by
            rcases List.mem_cons.mp hb1 with h' | h'
            · exact absurd h'.symm h
            · exact h'
          have h1 : epLe a b := List.rel_of_sorted_cons hs1 b hbt
          have h2 : epLe b a := List.rel_of_sorted_cons hs2 a hat2
          have hsw := epCmp_swap a b
          have hz : epCmp a b = 0 := by
            unfold epLe at h1 h2
            omega
          exact hinj a (List.mem_cons_self a t) b (List.mem_cons_of_mem a hbt) hz
      subst hab
      have ht : t.Perm t2 := hp.cons_inv
      have heq := ih t2 ht hs1.of_cons hs2.of_cons
        (fun x hx y hy hxy =>
          hinj x (List.mem_cons_of_mem a hx) y (List.mem_cons_of_mem a hy) hxy)
      rw [heq]

theorem assocEps_addToSeries (m : String) (c : Channel) :
    ∀ (A : List (String × List Channel)) (n : String),
      assocEps n (addToSeries A m c) =
        assocEps n A ++ (if n = m then [c] else []) := by
  intro A
  induction A with
  | nil =>
    intro n
    by_cases h : m = n
    · subst h
      simp [addToSeries, assocEps]
    · have h' : ¬n = m := fun he => h he.symm
      simp [addToSeries, assocEps, h, h']
  | cons hd A' ih =>
    obtain ⟨m', eps⟩ := hd
    intro n
    by_cases h : m' = m
    · subst h
      by_cases hn : m' = n
      · subst hn
        simp [addToSeries, assocEps]
      · have hn' : ¬n = m' := fun he => hn he.symm
        simp [addToSeries, assocEps, hn, hn']
    · by_cases hn : m' = n
      · subst hn
        have h' : ¬m' = m := h
        simp [addToSeries, assocEps, h']
      · simp [addToSeries, assocEps, h, hn, ih n]

theorem assocEps_of_mem :
    ∀ (A : List (String × List Channel)), (A.map Prod.fst).Nodup →
      ∀ (n : String) (eps : List Channel), (n, eps) ∈ A → assocEps n A = eps := by
  intro A
  induction A with
  | nil => intro _ n eps h; exact absurd h (List.not_mem_nil _)
  | cons hd A' ih =>
    obtain ⟨m', eps'⟩ := hd
    intro hnodup n eps hmem
    rw [List.map_cons, List.nodup_cons] at hnodup
    rcases List.mem_cons.mp hmem with heq | hmem'
    · have h1 : n = m' := congrArg Prod.fst heq
      have h2 : eps = eps' := congrArg Prod.snd heq
      subst h1
      subst h2
      simp [assocEps]
    · have hne : ¬m' = n := by
        intro he
        subst he
        exact hnodup.1 (List.mem_map.mpr ⟨(m', eps), hmem', rfl⟩)
      simp only [assocEps]
      rw [if_neg hne]
      exact ih hnodup.2 n eps hmem'

theorem addToSeries_keys (m : String) (c : Channel) :
    ∀ A : List (String × List Channel),
      (addToSeries A m c).map Prod.fst =
        if m ∈ A.map Prod.fst then A.map Prod.fst else A.map Prod.fst ++ [m] := by
  intro A
  induction A with
  | nil => simp [addToSeries]
  | cons hd A' ih =>
    obtain ⟨m', eps⟩ := hd
    by_cases h : m' = m
    · subst h
      simp [addToSeries]
    · have hne : ¬m = m' := fun he => h he.symm
      by_cases hm : m ∈ A'.map Prod.fst
      · simp [addToSeries, h, hm, hne, ih]
      · simp [addToSeries, h, hm, hne, ih]

theorem collectSeries_append (l : List Channel) (c : Channel) :
    collectSeries (l ++ [c]) =
      match truthySeriesName c with
      | some n => addToSeries (collectSeries l) n c
      | none => collectSeries l := by
  unfold collectSeries
  rw [List.foldl_append, List.foldl_cons, List.foldl_nil]

theorem collectSeries_keys_nodup : ∀ l : List Channel,
    ((collectSeries l).map Prod.fst).Nodup := by
  intro l
  induction l using List.reverseRecOn with
  | nil => simp [collectSeries]
  | append_singleton l c ih =>
    rw [collectSeries_append]
    cases ht : truthySeriesName c with
    | none => exact ih
    | some m =>
      rw [addToSeries_keys]
      by_cases hm : m ∈ (collectSeries l).map Prod.fst
      · rw [if_pos hm]
        exact ih
      · rw [if_neg hm]
        simp [List.nodup_append, ih, hm]

theorem collectSeries_assocEps : ∀ (l : List Channel) (n : String),
    assocEps n (collectSeries l) =
      l.filter (fun c => truthySeriesName c == some n) := by
  intro l
  induction l using List.reverseRecOn with
  | nil => intro n; rfl
  | append_singleton l c ih =>
    intro n
    rw [collectSeries_append, List.filter_append]
    cases ht : truthySeriesName c with
    | none => simp [ht, ih]
    | some m =>
      simp only [ht]
      rw [assocEps_addToSeries, ih n]
      by_cases hm : m = n
      · subst hm
        simp [ht]
      · have hm' : ¬n = m := fun he => hm he.symm
        simp [hm, hm', ht]

theorem groupedSeries_episodes (l : List Channel) (s : Series)
    (hs : s ∈ groupedSeries l) :
    s.episodes = epSort (l.filter (fun c => truthySeriesName c == some s.name)) := by
  unfold groupedSeries at hs
  by_cases hv : isSeriesView l = true
  · rw [if_pos hv] at hs
    rcases List.mem_map.mp hs with ⟨p, hp, hps⟩
    have hname : s.name = p.1 := by rw [← hps]; rfl
    have heps : s.episodes = epSort p.2 := by rw [← hps]; rfl
    rw [heps, hname]
    have hassoc : assocEps p.1 (collectSeries l) = p.2 :=
      assocEps_of_mem (collectSeries l) (collectSeries_keys_nodup l) p.1 p.2
        (by simpa using hp)
    rw [← hassoc, collectSeries_assocEps]
  · rw [if_neg hv] at hs
    exact absurd hs (List.not_mem_nil s)

/-- **C5 counterexample.** Two distinct episodes of the same series with the
same `(season, episode)` key: the stable sort preserves their input order,
so a shuffle of the same entries yields a different episodes list. -/
theorem episodes_not_permutation_invariant :
    ([chA, chB] : List Channel).Perm [chB, chA] ∧
    (groupedSeries [chA, chB]).map Series.episodes = [[chA, chB]] ∧
    (groupedSeries [chB, chA]).map Series.episodes = [[chB, chA]] ∧
    chA ≠ chB :=
  ⟨List.Perm.swap chB chA [], by decide, by decide, by decide⟩

/-- **C5 (amended).** Every series produced by the catalog builder has its
episodes totally ordered by `(season, episode)` ascending with unset fields
treated as 0; and the episodes list of each series is invariant under
permutation of the input sequence provided no two distinct entries of the
same series carry the same `(season, episode)` key (with tied keys the
stable sort preserves input order, so invariance fails — see the
counterexample). -/
theorem groupedSeries_sorted_perm_invariant :
    (∀ (l : List Channel), ∀ s ∈ groupedSeries l,
        s.episodes.Sorted (fun a b =>
          jsOr0 a.season < jsOr0 b.season ∨
          (jsOr0 a.season = jsOr0 b.season ∧ jsOr0 a.episode ≤ jsOr0 b.episode))) ∧
    (∀ (l1 l2 : List Channel), l1.Perm l2 →
        (∀ a ∈ l1, ∀ b ∈ l1, truthySeriesName a = truthySeriesName b →
          truthySeriesName a ≠ none → epCmp a b = 0 → a = b) →
        ∀ s1 ∈ groupedSeries l1, ∀ s2 ∈ groupedSeries l2,
          s1.name = s2.name → s1.episodes = s2.episodes) := by
  constructor
  · intro l s hs
    rw [groupedSeries_episodes l s hs]
    exact List.Pairwise.imp (fun hab => (epLe_iff _ _).mp hab) (epSort_sorted _)
  · intro l1 l2 hp hinj s1 hs1 s2 hs2 hname
    rw [groupedSeries_episodes l1 s1 hs1, groupedSeries_episodes l2 s2 hs2, ← hname]
    apply eq_of_sorted_of_perm_inj
    · exact (epSort_perm _).trans ((hp.filter _).trans (epSort_perm _).symm)
    · exact epSort_sorted _
    · exact epSort_sorted _
    · intro a ha b hb hz
      have ha' := List.mem_filter.mp ((epSort_perm _).subset ha)
      have hb' := List.mem_filter.mp ((epSort_perm _).subset hb)
      have hta : truthySeriesName a = some s1.name := by
        have := ha'.2
        rwa [beq_iff_eq] at this
      have htb : truthySeriesName b = some s1.name := by
        have := hb'.2
        rwa [beq_iff_eq] at this
      exact hinj a ha'.1 b hb'.1 (hta.trans htb.symm) (by rw [hta]; exact Option.some_ne_none _) hz

/-- Witness for C5 (amended): a two-episode series with distinct keys,
shuffled, yields the same sorted episodes list. -/
theorem groupedSeries_sorted_perm_invariant_witness :
    (Series.mk "X" "" 2 2 [chA, chC] ∈ groupedSeries [chA, chC]) ∧
    (Series.mk "X" "" 2 2 [chA, chC]).episodes.Sorted (fun a b =>
        jsOr0 a.season < jsOr0 b.season ∨
        (jsOr0 a.season = jsOr0 b.season ∧ jsOr0 a.episode ≤ jsOr0 b.episode)) ∧
    (Series.mk "X" "" 2 2 [chA, chC]).episodes =
      (Series.mk "X" "" 2 2 [chA, chC]).episodes :=
  ⟨by decide,
   groupedSeries_sorted_perm_invariant.1 [chA, chC] (Series.mk "X" "" 2 2 [chA, chC])
     (by decide),
   groupedSeries_sorted_perm_invariant.2 [chA, chC] [chC, chA]
     (List.Perm.swap chC chA []) (by decide)
     (Series.mk "X" "" 2 2 [chA, chC]) (by decide)
     (Series.mk "X" "" 2 2 [chA, chC]) (by decide) rfl⟩

/-! ### C6 — upstream request headers (corrected: `Range` truthiness) -/

/-- **C6 counterexample.** An inbound `Range` header that is present with an
empty value is *not* forwarded upstream: `req.headers.range` is falsy for
`""`, so the claim "when present, forwarded verbatim" fails at this input. -/
theorem range_forwarding_counterexample :
    lookupHeader "range" [("Range", "")] = some "" ∧
    upstreamHeaders "tiralit.shop" 8880 [("Range", "")] =
      impersonationHeaders "tiralit.shop" 8880 ∧
    lookupHeader "range" (upstreamHeaders "tiralit.shop" 8880 [("Range", "")]) = none := by
  refine ⟨rfl, by decide, by decide⟩

/-- **C6 (amended).** The inbound `Range` header, when present with a
non-empty value, is appended verbatim to the fixed impersonation set; when
absent, or present with an empty value, the upstream headers are exactly the
fixed impersonation set (no `Range` is ever synthesized), so all other
upstream request headers never depend on the inbound headers. -/
theorem upstreamHeaders_spec :
    (∀ (host : String) (port : Nat) (inbound : List (String × String)) (r : String),
        lookupHeader "range" inbound = some r → r ≠ "" →
        upstreamHeaders host port inbound =
          impersonationHeaders host port ++ [("Range", r)]) ∧
    (∀ (host : String) (port : Nat) (inbound : List (String × String)),
        lookupHeader "range" inbound = none →
        upstreamHeaders host port inbound = impersonationHeaders host port) ∧
    (∀ (host : String) (port : Nat) (inbound : List (String × String)),
        lookupHeader "range" inbound = some "" →
        upstreamHeaders host port inbound = impersonationHeaders host port) := by
  refine ⟨?_, ?_, ?_⟩
  · intro host port inbound r h hr
    unfold upstreamHeaders
    rw [h]
    have hd : r.data.isEmpty = false := by
      cases r with
      | mk d =>
        cases d with
        | nil => exact absurd rfl hr
        | cons a t => rfl
    simp [hd]
  · intro host port inbound h
    unfold upstreamHeaders
    rw [h]
  · intro host port inbound h
    unfold upstreamHeaders
    rw [h]
    rfl

/-! ### C7 — response-header relaying -/

theorem lookup_map_replace (k v : String) :
    ∀ hs : List (String × String),
      hs.any (fun q => lowerStr q.1 == lowerStr k) = true →
      lookupHeader (lowerStr k)
        (hs.map (fun q => if lowerStr q.1 == lowerStr k then (q.1, v) else q)) = some v := by
  intro hs
  induction hs with
  | nil => intro h; simp at h
  | cons h0 t ih =>
    intro hany
    rw [List.map_cons]
    unfold lookupHeader
    by_cases hh : (lowerStr h0.1 == lowerStr k) = true
    · rw [if_pos hh]
      simp [List.find?_cons, hh]
    · rw [if_neg hh]
      have hf : (lowerStr h0.1 == lowerStr k) = false := Bool.eq_false_iff.mpr hh
      have hany' : t.any (fun q => lowerStr q.1 == lowerStr k) = true := by
        rcases List.any_eq_true.mp hany with ⟨q, hq, hpq⟩
        rcases List.mem_cons.mp hq with rfl | hqt
        · exact absurd hpq hh
        · exact List.any_eq_true.mpr ⟨q, hqt, hpq⟩
      have hrec := ih hany'
      unfold lookupHeader at hrec
      simpa [List.find?_cons, hf] using hrec

theorem lookup_setHeaderM_self (hs : List (String × String)) (k v : String) :
    lookupHeader (lowerStr k) (setHeaderM hs k v) = some v := by
  unfold setHeaderM
  by_cases hany : hs.any (fun q => lowerStr q.1 == lowerStr k) = true
  · rw [if_pos hany]
    exact lookup_map_replace k v hs hany
  · rw [if_neg hany]
    have hnone : hs.find? (fun q => lowerStr q.1 == lowerStr k) = none := by
      rw [List.find?_eq_none]
      intro x hx hpx
      exact hany (List.any_eq_true.mpr ⟨x, hx, hpx⟩)
    unfold lookupHeader
    rw [List.find?_append, hnone]
    simp

theorem lookup_map_replace_other (k v key : String) (hne : lowerStr key ≠ lowerStr k) :
    ∀ hs : List (String × String),
      lookupHeader (lowerStr key)
        (hs.map (fun q => if lowerStr q.1 == lowerStr k then (q.1, v) else q)) =
        lookupHeader (lowerStr key) hs := by
  intro hs
  induction hs with
  | nil => rfl
  | cons h0 t ih =>
    rw [List.map_cons]
    unfold lookupHeader
    by_cases hrepl : (lowerStr h0.1 == lowerStr k) = true
    · have hk : (lowerStr h0.1 == lowerStr key) = false := by
        rw [beq_iff_eq] at hrepl
        rw [beq_eq_false_iff_ne, hrepl]
        exact fun hsym => hne hsym.symm
      rw [if_pos hrepl]
      unfold lookupHeader at ih
      simpa [List.find?_cons, hk] using ih
    · rw [if_neg hrepl]
      by_cases hk : (lowerStr h0.1 == lowerStr key) = true
      · simp [List.find?_cons, hk]
      · have hkf : (lowerStr h0.1 == lowerStr key) = false := Bool.eq_false_iff.mpr hk
        unfold lookupHeader at ih
        simpa [List.find?_cons, hkf] using ih

theorem lookup_setHeaderM_other (hs : List (String × String)) (k v key : String)
    (hne : lowerStr key ≠ lowerStr k) :
    lookupHeader (lowerStr key) (setHeaderM hs k v) = lookupHeader (lowerStr key) hs := by
  unfold setHeaderM
  by_cases hany : hs.any (fun q => lowerStr q.1 == lowerStr k) = true
  · rw [if_pos hany]
    exact lookup_map_replace_other k v key hne hs
  · rw [if_neg hany]
    have hp : (lowerStr k == lowerStr key) = false := by
      rw [beq_eq_false_iff_ne]
      exact fun h => hne h.symm
    have h1 : List.find? (fun q => lowerStr q.1 == lowerStr key) [(k, v)] = none := by
      rw [List.find?_cons_of_neg _ (by simp [hp])]
      rfl
    unfold lookupHeader
    rw [List.find?_append, h1]
    cases hx : hs.find? (fun q => lowerStr q.1 == lowerStr key) with
    | none => rfl
    | some p => rfl

theorem setHeaderM_te_free (hs : List (String × String)) (k v : String)
    (hk : lowerStr k ≠ "transfer-encoding")
    (hhs : ∀ q ∈ hs, lowerStr q.1 ≠ "transfer-encoding") :
    ∀ q ∈ setHeaderM hs k v, lowerStr q.1 ≠ "transfer-encoding" := by
  intro q hq
  unfold setHeaderM at hq
  by_cases hany : hs.any (fun p => lowerStr p.1 == lowerStr k) = true
  · rw [if_pos hany] at hq
    rcases List.mem_map.mp hq with ⟨q', hq', him⟩
    by_cases hc : (lowerStr q'.1 == lowerStr k) = true
    · rw [if_pos hc] at him
      rw [← him]
      exact hhs q' hq'
    · rw [if_neg hc] at him
      rw [← him]
      exact hhs q' hq'
  · rw [if_neg hany] at hq
    rcases List.mem_append.mp hq with h | h
    · exact hhs q h
    · rw [List.mem_singleton.mp h]
      exact hk

theorem fold_lookup_other :
    ∀ (t : List (String × String)) (acc : List (String × String)) (key : String),
      (∀ q ∈ t, lowerStr q.1 ≠ lowerStr key) →
      lookupHeader (lowerStr key) (t.foldl forwardStep acc) =
        lookupHeader (lowerStr key) acc := by
  intro t
  induction t with
  | nil => intro acc key _; rfl
  | cons h0 t' ih =>
    intro acc key hne
    rw [List.foldl_cons]
    have step : lookupHeader (lowerStr key) (forwardStep acc h0) =
        lookupHeader (lowerStr key) acc := by
      unfold forwardStep
      by_cases hte : lowerStr h0.1 ≠ "transfer-encoding"
      · rw [if_pos hte]
        exact lookup_setHeaderM_other acc h0.1 h0.2 key
          (fun h => hne h0 (List.mem_cons_self h0 t') h.symm)
      · rw [if_neg hte]
    rw [ih (forwardStep acc h0) key (fun q hq => hne q (List.mem_cons_of_mem h0 hq)), step]

theorem fold_lookup_mem :
    ∀ (hs : List (String × String)) (acc : List (String × String)),
      (hs.map (fun q => lowerStr q.1)).Nodup →
      ∀ p ∈ hs, lowerStr p.1 ≠ "transfer-encoding" →
      lookupHeader (lowerStr p.1) (hs.foldl forwardStep acc) = some p.2 := by
  intro hs
  induction hs with
  | nil => intro acc _ p hp; exact absurd hp (List.not_mem_nil p)
  | cons h0 t ih =>
    intro acc hnodup p hp hpte
    rw [List.map_cons, List.nodup_cons] at hnodup
    rw [List.foldl_cons]
    rcases List.mem_cons.mp hp with rfl | hpt
    · have hother : ∀ q ∈ t, lowerStr q.1 ≠ lowerStr p.1 := by
        intro q hq heq
        exact hnodup.1 (List.mem_map.mpr ⟨q, hq, heq⟩)
      rw [fold_lookup_other t (forwardStep acc p) p.1 hother]
      unfold forwardStep
      rw [if_pos hpte]
      exact lookup_setHeaderM_self acc p.1 p.2
    · exact ih (forwardStep acc h0) hnodup.2 p hpt hpte

theorem fold_te_free :
    ∀ (hs : List (String × String)) (acc : List (String × String)),
      (∀ q ∈ acc, lowerStr q.1 ≠ "transfer-encoding") →
      ∀ q ∈ hs.foldl forwardStep acc, lowerStr q.1 ≠ "transfer-encoding" := by
  intro hs
  induction hs with
  | nil => intro acc hacc q hq; exact hacc q hq
  | cons h0 t ih =>
    intro acc hacc q hq
    rw [List.foldl_cons] at hq
    refine ih (forwardStep acc h0) ?_ q hq
    unfold forwardStep
    by_cases hte : lowerStr h0.1 ≠ "transfer-encoding"
    · rw [if_pos hte]
      exact setHeaderM_te_free acc h0.1 h0.2 hte hacc
    · rw [if_neg hte]
      exact hacc

/-- **C7.** Every upstream response header whose (case-insensitive) name is
not `transfer-encoding` is copied unchanged to the client response;
`transfer-encoding` itself is never forwarded (no header of that name
appears on the client response); and the upstream status code is mirrored
to the client. -/
theorem relayResponse_spec :
    (∀ (upstreamHs : List (String × String)),
        (upstreamHs.map (fun q => lowerStr q.1)).Nodup →
        ∀ p ∈ upstreamHs, lowerStr p.1 ≠ "transfer-encoding" →
        lookupHeader (lowerStr p.1) (forwardResHeaders upstreamHs) = some p.2) ∧
    (∀ (upstreamHs : List (String × String)),
        ∀ q ∈ forwardResHeaders upstreamHs, lowerStr q.1 ≠ "transfer-encoding") ∧
    (∀ (st : Nat) (hs : List (String × String)), (relayResponse st hs).1 = st) := by
  refine ⟨?_, ?_, fun st hs => rfl⟩
  · intro upstreamHs hnodup p hp hpte
    exact fold_lookup_mem upstreamHs corsResHeaders hnodup p hp hpte
  · intro upstreamHs q hq
    exact fold_te_free upstreamHs corsResHeaders (by decide) q hq

/-- Witness for C7 on a concrete 206 upstream response carrying
`content-type`, `transfer-encoding` and `content-range`. -/
theorem relayResponse_spec_witness :
    ([("content-type", "video/mp2t"), ("transfer-encoding", "chunked"),
      ("content-range", "bytes 0-1/5")].map (fun q => lowerStr q.1)).Nodup ∧
    lookupHeader (lowerStr "content-type")
      (forwardResHeaders
        [("content-type", "video/mp2t"), ("transfer-encoding", "chunked"),
         ("content-range", "bytes 0-1/5")]) = some "video/mp2t" ∧
    (relayResponse 206 [("content-type", "video/mp2t")]).1 = 206 :=
  ⟨by decide,
   relayResponse_spec.1
     [("content-type", "video/mp2t"), ("transfer-encoding", "chunked"),
      ("content-range", "bytes 0-1/5")]
     (by decide) ("content-type", "video/mp2t") (by decide) (by decide),
   relayResponse_spec.2.2 206 [("content-type", "video/mp2t")]⟩

/-- Witness for C6 (amended) at a concrete seek request and a request with
no `Range`. -/
theorem upstreamHeaders_spec_witness :
    lookupHeader "range" [("Accept", "*/*"), ("Range", "bytes=1000-")] = some "bytes=1000-" ∧
    upstreamHeaders "tiralit.shop" 8880 [("Accept", "*/*"), ("Range", "bytes=1000-")] =
      impersonationHeaders "tiralit.shop" 8880 ++ [("Range", "bytes=1000-")] ∧
    lookupHeader "range" [("Accept", "*/*")] = none ∧
    upstreamHeaders "tiralit.shop" 8880 [("Accept", "*/*")] =
      impersonationHeaders "tiralit.shop" 8880 :=
  ⟨by decide,
   upstreamHeaders_spec.1 "tiralit.shop" 8880 [("Accept", "*/*"), ("Range", "bytes=1000-")]
     "bytes=1000-" (by decide) (by decide),
   by decide,
   upstreamHeaders_spec.2.1 "tiralit.shop" 8880 [("Accept", "*/*")] (by decide)⟩

end CineFlow
